import Mathlib

/-!
Shallow embedding of `src/dataset_loaders/parallel_loader.py`
(`ThreadedDataset` and `threaded_fetch`), together with models of the two
helper functions (`grouper`, `overlap_grouper`) that `parallel_loader.py`
imports from the repository's `utils_parallel_loader` module, which is not
part of the given source tree.

Conventions:
* Python ints are embedded as `Int` (labels, class counts, thread counts,
  overlaps) or as `Nat` where the quantity is structurally non-negative
  (list lengths, batch sizes, window lengths after `__init__` normalised
  `seq_length` to at least 1).
* Python dicts built by successive assignment are embedded as association
  lists where a later binding overrides an earlier one (`dictGet` returns
  the last binding of a key).
* Fallible paths return `Except`; the `__init__`-time validation checks are
  collected, in source order, in `initChecks`.
-/

namespace DatasetLoaders

/-- Python's `range(n)` for an `int` argument, as a list of integers
(`range` of a non-positive number is empty). -/
def pyRange (n : ℤ) : List ℤ :=
  (List.range n.toNat).map (fun (k : ℕ) => (k : ℤ))

/-- Lookup in an association list with Python-dict semantics: successive
assignments override, so the *last* binding of the key wins. -/
def dictGet (m : List (ℤ × ℤ)) (k : ℤ) : Option ℤ :=
  ((m.filter (fun p => p.1 == k)).getLast?).map Prod.snd

/-! ## SequenceWindower (`_fill_names_sequences`, lines 284-305) -/

/-- Modelled from the spec: the repository's `utils_parallel_loader.overlap_grouper`
(imported by `parallel_loader.py`, not in the given source) slides a window of
exactly `n` consecutive elements across `l`, one window per start offset at
which a full window fits (stride 1, consecutive windows overlapping by
`n - 1`), and tags every element with the subset key `pfx`, so each produced
element has the form `(pfx, name)`. -/
def overlap_grouper (l : List α) (n : ℕ) (pfx : σ) : List (List (σ × α)) :=
  (List.range (l.length + 1 - n)).map
    (fun i => ((l.drop i).take n).map (fun x => (pfx, x)))

/-- The padding step of `_fill_names_sequences` (line 294): repeat the first
name `seq_length // 2` times at the front and the last name `seq_length // 2`
times at the back. -/
def extended_names [Inhabited α] (names : List α) (seq_length : ℕ) : List α :=
  List.replicate (seq_length / 2) names.headI ++ names ++
    List.replicate (seq_length / 2) names.getLastI

/-- Python's extended slice `l[::k]` for a step `k ≥ 1`: keep the elements at
indices `0, k, 2k, ...` (Python raises on `k = 0`, a case never reached
because `__init__` enforces `overlap < seq_length` whenever this is used). -/
def everyNth (l : List α) (k : ℕ) : List α :=
  (l.enum.filter (fun p => p.1 % k == 0)).map Prod.snd

/-- One subset's branch of `_fill_names_sequences` (lines 288-304): pad the
name list, take all stride-1 windows of length `seq_length`, then keep every
`(seq_length - overlap)`-th window starting at offset 0. -/
def fill_names_sequences_subset [Inhabited α] (pfx : σ) (names : List α)
    (seq_length overlap : ℕ) : List (List (σ × α)) :=
  everyNth (overlap_grouper (extended_names names seq_length) seq_length pfx)
    (seq_length - overlap)

/-! ## LabelMapper (`_get_mapping`, lines 631-649) -/

/-- Count of the void labels among `0, ..., i-1`; this is the value of the
`delta` counter of `_get_mapping` when the loop of line 643 reaches label `i`. -/
def voidsBelow (void_labels : List ℤ) (i : ℕ) : ℕ :=
  (((List.range i).map (fun (k : ℕ) => (k : ℤ))).filter (fun j => j ∈ void_labels)).length

/-- The loop body of `_get_mapping`'s implicit branch (lines 640-648): walk the
labels, mapping a void label to `non_void_nclasses` and bumping `delta`, and a
non-void label `i` to `i - delta`. -/
def get_mapping_go (void_labels : List ℤ) (nvc : ℤ) : List ℤ → ℤ → List (ℤ × ℤ)
  | [], _ => []
  | i :: rest, delta =>
    if i ∈ void_labels then (i, nvc) :: get_mapping_go void_labels nvc rest (delta + 1)
    else (i, i - delta) :: get_mapping_go void_labels nvc rest delta

/-- The branch of `_get_mapping` taken when the dataset class has no `GTclasses` attribute
(lines 639-648): labels are assumed to be the contiguous range
`0 .. non_void_nclasses + len(void_labels) - 1`. -/
def get_mapping_implicit (nvc : ℤ) (void_labels : List ℤ) : List (ℤ × ℤ) :=
  get_mapping_go void_labels nvc (pyRange (nvc + void_labels.length)) 0

/-- What it means for a list to be the iteration order of
`set(self.GTclasses) - set(self._void_labels)` on lines 635-636: an
enumeration, without repetition, of exactly the labels of `GTclasses` that
are not void.  Which enumeration the runtime yields is implementation-defined
(CPython iterates an int set in hash-table order, e.g. `set([0,8,16,24,32])`
iterates as `[0, 32, 16, 8, 24]`); in particular the `GTclasses.sort()` of
line 634 has no effect on it, so it is *not* in general ascending. -/
def SetDiffIterOrder (GTclasses void_labels order : List ℤ) : Prop :=
  order.Nodup ∧ (∀ c ∈ GTclasses, c ∉ void_labels → c ∈ order) ∧
    (∀ c ∈ order, c ∈ GTclasses ∧ c ∉ void_labels)

/-- The branch of `_get_mapping` taken when the dataset class has a
`GTclasses` attribute (lines 633-638): enumerate the non-void labels in the
runtime's set-iteration order (passed explicitly as `setIterOrder`, see
`SetDiffIterOrder`), then assign `non_void_nclasses` to every void label
(overriding, dict-style). -/
def get_mapping_explicit (setIterOrder void_labels : List ℤ) (nvc : ℤ) : List (ℤ × ℤ) :=
  (setIterOrder.enum.map (fun p => (p.2, (p.1 : ℤ)))) ++
    void_labels.map (fun l => (l, nvc))

/-! ## BatchScheduler (`_fill_names_batches`, lines 307-336) -/

/-- Modelled from the spec: the repository's `utils_parallel_loader.grouper`
(imported by `parallel_loader.py`, not in the given source) collects a flat
sequence into consecutive groups of exactly `n` slots; the final group is
padded with `none` — the "absent" entries that `fetch_from_dataset`
(lines 436-437) skips and never loads.  The first argument is recursion fuel;
`l.length` steps always suffice for a nonempty step. -/
def grouperFuel (n : ℕ) : ℕ → List α → List (List (Option α))
  | 0, _ => []
  | _ + 1, [] => []
  | fuel + 1, x :: xs =>
    (((x :: xs).take n).map some ++ List.replicate (n - (x :: xs).length) none)
      :: grouperFuel n fuel ((x :: xs).drop n)

/-- The call `grouper(names_sequences, batch_size)` of line 332: group the flat window
sequence into minibatch index groups of `n` slots (`n = 0` yields nothing). -/
def grouper (l : List α) (n : ℕ) : List (List (Option α)) :=
  match n with
  | 0 => []
  | n + 1 => grouperFuel (n + 1) l.length l

/-- Lines 318-323 of `_fill_names_batches`: when `seq_per_video` is nonzero,
pick the first `seq_per_video` entries of a random index permutation
(`np.random.permutation(range(len(sequences)))[:seq_per_video]`) and select
those windows; the non-reproducible random draw is abstracted by the explicit
permutation argument `perm`. -/
def selectSeqs (seq_per_video : ℕ) (perm : List ℕ) (seqs : List W) : List W :=
  if seq_per_video = 0 then seqs
  else (perm.take seq_per_video).filterMap (fun i => seqs[i]?)

/-- Lines 314-325: concatenate the (possibly subsampled) per-subset window
lists into one flat sequence, one permutation per subset. -/
def flat_sequences (seq_per_video : ℕ) (subsets : List (List W))
    (perms : List (List ℕ)) : List W :=
  ((subsets.zip perms).map (fun p => selectSeqs seq_per_video p.2 p.1)).flatten

/-- The body of `_fill_names_batches` without the shuffle branch (the claims under study
use `shuffle = False`; with shuffling, line 329 would permute the flat
sequence in place before grouping): returns
`(nsamples, nbatches, names_batches)` as set on lines 332-336. -/
def fill_names_batches (seq_per_video : ℕ) (subsets : List (List W))
    (perms : List (List ℕ)) (batch_size : ℕ) :
    ℕ × ℕ × List (List (Option W)) :=
  let flat := flat_sequences seq_per_video subsets perms
  (flat.length, (grouper flat batch_size).length, grouper flat batch_size)

/-! ## The step loop (`_step`, lines 356-418) and workers (`threaded_fetch`,
lines 682-712) -/

/-- The call `self.names_batches.next()` (lines 387, 404): the plain Python iterator
over the current epoch's batch list.  It returns the next group and the
remaining cursor, or `none` (a `StopIteration`) when the epoch's groups are
exhausted; it never rebuilds anything. -/
def sched_next : List G → Option (G × List G)
  | [] => none
  | g :: gs => some (g, gs)

/-- Result of one `_step` call in the non-threaded branch (lines 401-415). -/
inductive StepResult (G B : Type) where
  | batch : B → List G → StepResult G B
  | endOfEpoch : List G → StepResult G B
  | diverge : StepResult G B

/-- The non-threaded branch of `_step` (lines 401-415), with the fetch
function total (the `IOError` retry path is modelled separately for the
threaded branch): take the next group from the cursor and fetch it; on
`StopIteration` rebuild the epoch (`_fill_names_batches`, abstracted as the
already-rebuilt group list `rebuilt`), then raise `StopIteration` to the
caller if the iterator is not infinite, else loop into the new epoch
(diverging if the rebuilt epoch is empty, as the Python `while` would). -/
def step_nothreads (fetch : G → B) (rebuilt : List G) (infinite_iterator : Bool)
    (cur : List G) : StepResult G B :=
  match sched_next cur with
  | some (g, rest) => .batch (fetch g) rest
  | none =>
    if infinite_iterator then
      match sched_next rebuilt with
      | some (g, rest) => .batch (fetch g) rest
      | none => .diverge
    else .endOfEpoch rebuilt

/-- The tuple `sys.exc_info()` as placed on the data queue by a worker (line 711):
whether the exception is an `IOError` (the recoverable kind tested on
line 378) plus an opaque payload. -/
structure ExcInfo where
  isIOError : Bool
  payload : ℕ

/-- One item of the `data_queue`: either a fetched minibatch or a captured
worker exception. -/
inductive QItem (B : Type) where
  | batch : B → QItem B
  | excInfo : ExcInfo → QItem B

/-- The worker loop of `threaded_fetch` (lines 692-712) over a list of queued
index groups: fetch each group, pushing the minibatch on success and the
captured `sys.exc_info()` on failure; the `while True` loop continues after
an exception, so every group is processed and the worker never exits early. -/
def threaded_fetch_run (fetch : G → Except ExcInfo B) (jobs : List G) :
    List (QItem B) :=
  jobs.map (fun g => match fetch g with
    | .ok b => QItem.batch b
    | .error e => QItem.excInfo e)

/-- The exception handling of the threaded branch of `_step`
(lines 372-383) as a consumer over the pending `data_queue` items: pop the
next item; an `IOError` record is logged and the loop pops the next item
(`continue`); any other captured exception is re-raised to the caller
(`raise`); a minibatch is returned.  An empty queue (`Queue.Empty`) is
reported as `none`. -/
def step_consume : List (QItem B) → Except ExcInfo (Option (B × List (QItem B)))
  | [] => .ok none
  | .batch b :: rest => .ok (some (b, rest))
  | .excInfo e :: rest =>
    if e.isIOError then step_consume rest else .error e

/-! ## `__init__`-time validation checks -/

/-- The check on lines 179-180:
`if seq_length and overlap and overlap >= seq_length: raise ValueError(...)`.
Python truthiness: the branch is taken only when `seq_length` is nonzero and
`overlap` is neither `None` nor `0`. -/
def overlap_check_raises (seq_length : ℤ) (overlap : Option ℤ) : Bool :=
  match overlap with
  | none => false
  | some o => seq_length != 0 && o != 0 && decide (seq_length ≤ o)

/-- The check on lines 157-159:
`if use_threads and nthreads > 1 and not shuffle_at_each_epoch:
raise NotImplementedError(...)`. -/
def multithread_check_raises (use_threads : Bool) (nthreads : ℤ)
    (shuffle_at_each_epoch : Bool) : Bool :=
  use_threads && decide (1 < nthreads) && !shuffle_at_each_epoch

/-- The value-level constructor configuration of `ThreadedDataset.__init__`:
the arguments inspected by its validation checks, plus presence flags for the
attributes that the implementing subclass must define (`hasattr` checks of
lines 161-168 and 171) and the name lists returned by `get_names`. -/
structure Config where
  use_threads : Bool
  nthreads : ℤ
  shuffle_at_each_epoch : Bool
  has_name : Bool
  has_non_void_nclasses : Bool
  has_debug_shape : Bool
  has_void_labels_attr : Bool
  has_path : Bool
  has_sharedpath : Bool
  has_data_shape : Bool
  batch_size : ℤ
  crop_size : Option (ℤ × ℤ)
  seq_length : ℤ
  overlap : Option ℤ
  non_void_nclasses : ℤ
  void_labels : List ℤ
  names_per_subset : List (String × List String)

/-- The errors `__init__` can raise from its value-level validation. -/
inductive InitError where
  | notImplementedError
  | nameError
  | valueErrorShape
  | valueErrorOverlap
  | runtimeErrorEmpty
deriving DecidableEq

/-- The construction-time validation of `ThreadedDataset.__init__` in source
order: the multithreading check (lines 156-159), the mandatory-attribute
check (lines 161-168), the variable-shape/batch-size check (lines 170-177),
the overlap check (lines 179-180), and the empty-name-list check after
`_fill_names_sequences` (lines 238-239; `names_sequences` has exactly the
keys of `names_per_subset`, so it is empty iff there is no subset).  The
filesystem side effects (lines 182-197) are outside the model.  Note that no
check inspects the *value* of `non_void_nclasses`; only its presence flag is
consulted. -/
def initChecks (c : Config) : Except InitError Unit :=
  if multithread_check_raises c.use_threads c.nthreads c.shuffle_at_each_epoch then
    .error .notImplementedError
  else if !(c.has_name && c.has_non_void_nclasses && c.has_debug_shape &&
      c.has_void_labels_attr && c.has_path && c.has_sharedpath) then
    .error .nameError
  else if !c.has_data_shape && decide (1 < c.batch_size) && c.crop_size.isNone then
    .error .valueErrorShape
  else if overlap_check_raises c.seq_length c.overlap then
    .error .valueErrorOverlap
  else if c.names_per_subset.isEmpty then
    .error .runtimeErrorEmpty
  else
    .ok ()

end DatasetLoaders

namespace DatasetLoaders

/-! ## Theorems for the windowing claims -/

/-- C1, counterexample: for the subset `[f0, f1, f2, f3, f4]` (`L = 5`) with
`seq_length = 3`, the padded stride-1 windowing yields 5 windows, not
`L + seq_length - 1 = 7` as the claim states. -/
theorem stride1_count_claim_false :
    (overlap_grouper (extended_names ["f0", "f1", "f2", "f3", "f4"] 3) 3 "A").length = 5 ∧
    ¬ (overlap_grouper (extended_names ["f0", "f1", "f2", "f3", "f4"] 3) 3 "A").length
        = 5 + 3 - 1 := by
  exact ⟨rfl, by decide⟩

/-- C1, amended: for every subset with `L ≥ 1` names and every
`seq_length ≥ 1`, the padded stride-1 windowing produces exactly
`L + 1 - seq_length % 2` windows (that is `L` windows for odd `seq_length`
and `L + 1` for even `seq_length`; this agrees with the claimed
`L + seq_length - 1` only for `seq_length ≤ 2`), and in the concrete case
`[f0..f4]`, `seq_length = 3`, `overlap = 1` the retained windows are exactly
`[f0,f0,f1], [f1,f2,f3], [f3,f4,f4]`. -/
theorem stride1_count_and_retained :
    (∀ (σ α : Type) (_ : Inhabited α) (pfx : σ) (names : List α) (s : ℕ),
      1 ≤ names.length → 1 ≤ s →
      (overlap_grouper (extended_names names s) s pfx).length
        = names.length + 1 - s % 2) ∧
    fill_names_sequences_subset "A" ["f0", "f1", "f2", "f3", "f4"] 3 1 =
      [[("A", "f0"), ("A", "f0"), ("A", "f1")],
       [("A", "f1"), ("A", "f2"), ("A", "f3")],
       [("A", "f3"), ("A", "f4"), ("A", "f4")]] := by
  constructor
  · intro σ α _ pfx names s hL hs
    simp only [overlap_grouper, extended_names, List.length_map, List.length_range,
      List.length_append, List.length_replicate]
    omega
  · rfl

/-- Witness for `stride1_count_and_retained` at the concrete subset of five
names with `seq_length = 3`. -/
theorem stride1_count_and_retained_witness :
    (overlap_grouper (extended_names ["f0", "f1", "f2", "f3", "f4"] 3) 3 "A").length
      = 5 + 1 - 3 % 2 :=
  stride1_count_and_retained.1 String String inferInstance "A"
    ["f0", "f1", "f2", "f3", "f4"] 3 (by decide) (by decide)

/-! ## Theorems for the implicit label mapping -/

theorem voidsBelow_succ (voids : List ℤ) (a : ℕ) :
    voidsBelow voids (a + 1)
      = voidsBelow voids a + (if (a : ℤ) ∈ voids then 1 else 0) := by
  unfold voidsBelow
  rw [List.range_succ, List.map_append, List.filter_append, List.length_append]
  by_cases hm : (a : ℤ) ∈ voids <;> simp [hm]

theorem get_mapping_go_spec (voids : List ℤ) (nvc : ℤ) :
    ∀ (m a : ℕ),
      get_mapping_go voids nvc ((List.range' a m).map (fun (k : ℕ) => (k : ℤ)))
          (voidsBelow voids a : ℤ)
        = (List.range' a m).map
            (fun (j : ℕ) => ((j : ℤ),
              if (j : ℤ) ∈ voids then nvc
              else (j : ℤ) - (voidsBelow voids j : ℤ))) := by
  intro m
  induction m with
  | zero => intro a; simp [get_mapping_go]
  | succ n ih =>
    intro a
    rw [List.range'_succ, List.map_cons, List.map_cons]
    by_cases hm : (a : ℤ) ∈ voids
    · rw [get_mapping_go, if_pos hm, if_pos hm]
      have h1 : (voidsBelow voids a : ℤ) + 1
          = (voidsBelow voids (a + 1) : ℤ) := by
        rw [voidsBelow_succ, if_pos hm]; push_cast; ring
      rw [h1, ih (a + 1)]
    · rw [get_mapping_go, if_neg hm, if_neg hm]
      have h1 : voidsBelow voids (a + 1) = voidsBelow voids a := by
        rw [voidsBelow_succ, if_neg hm, Nat.add_zero]
      rw [← h1, ih (a + 1)]

/-- C2: without an explicit class list, the mapping walks labels
`0 .. non_void_nclasses + |void_labels| - 1` in ascending order; a void label
is mapped to `non_void_nclasses` without advancing the canonical counter, and
a non-void label `j` is mapped to the current counter value, which equals
`j` minus the number of void labels below `j`; concretely, for
`non_void_nclasses = 4` and void labels `[3, 5]` the mapping is exactly
`{0: 0, 1: 1, 2: 2, 3: 4, 4: 3, 5: 4}`. -/
theorem get_mapping_implicit_spec :
    (∀ (nvc : ℤ) (voids : List ℤ),
      get_mapping_implicit nvc voids
        = (List.range (nvc + voids.length).toNat).map
            (fun (j : ℕ) => ((j : ℤ),
              if (j : ℤ) ∈ voids then nvc
              else (j : ℤ) - (voidsBelow voids j : ℤ)))) ∧
    get_mapping_implicit 4 [3, 5]
      = [(0, 0), (1, 1), (2, 2), (3, 4), (4, 3), (5, 4)] := by
  constructor
  · intro nvc voids
    have h := get_mapping_go_spec voids nvc (nvc + voids.length).toNat 0
    simp only [voidsBelow, List.range_zero, List.map_nil, List.filter_nil,
      List.length_nil, Nat.cast_zero] at h
    rw [get_mapping_implicit, pyRange, List.range_eq_range']
    exact h
  · decide

/-! ## Theorems for the `__init__` parameter checks -/

/-- C6, counterexample: a negative `overlap` (here `-1`, with
`seq_length = 3`) violates `0 <= overlap < seq_length` but does *not* make
the construction-time check raise, because `overlap and ...` only fires the
comparison for truthy (nonzero, non-`None`) overlaps and `-1 >= 3` is false. -/
theorem overlap_check_claim_false :
    overlap_check_raises 3 (some (-1)) = false ∧ ¬ (0 ≤ (-1 : ℤ)) := by decide

/-- C6, amended: for every `seq_length ≥ 1` and every explicit integer
`overlap`, the construction-time check raises exactly when
`overlap ≥ seq_length`; in particular it passes whenever
`0 ≤ overlap < seq_length` holds, but it also passes for every negative
`overlap` (documented in the source as frame skipping). -/
theorem overlap_check_characterisation :
    ∀ (sl o : ℤ), 1 ≤ sl →
      (overlap_check_raises sl (some o) = true ↔ sl ≤ o) := by
  intro sl o hsl
  unfold overlap_check_raises
  simp only [Bool.and_eq_true, bne_iff_ne, ne_eq, decide_eq_true_eq]
  constructor
  · rintro ⟨_, h⟩; exact h
  · intro h; exact ⟨⟨by omega, by omega⟩, h⟩

/-- Witness for `overlap_check_characterisation`: with `seq_length = 3` an
overlap of `5 ≥ 3` makes the check raise. -/
theorem overlap_check_characterisation_witness :
    overlap_check_raises 3 (some 5) = true :=
  (overlap_check_characterisation 3 5 (by decide)).mpr (by decide)

/-! ## Theorems for the batch scheduler -/

theorem filterMap_id_replicate_none (k : ℕ) :
    (List.replicate k (none : Option α)).filterMap id = [] := by
  induction k with
  | zero => rfl
  | succ n ih => simp [List.replicate_succ, ih]

theorem filterMap_id_map_some (l : List α) : (l.map some).filterMap id = l := by
  induction l with
  | nil => rfl
  | cons x xs ih => simp [ih]

theorem grouperFuel_sum (n : ℕ) (hn : 1 ≤ n) :
    ∀ (fuel : ℕ) (l : List α), l.length ≤ fuel →
      ((grouperFuel n fuel l).map (fun g => (g.filterMap id).length)).sum
        = l.length := by
  intro fuel
  induction fuel with
  | zero =>
    intro l hl
    have : l = [] := List.length_eq_zero.mp (Nat.le_zero.mp hl)
    subst this; rfl
  | succ m ih =>
    intro l hl
    match l with
    | [] => rfl
    | x :: xs =>
      rw [grouperFuel, List.map_cons, List.sum_cons, List.filterMap_append,
        filterMap_id_map_some, filterMap_id_replicate_none, List.append_nil,
        ih ((x :: xs).drop n) (by simp only [List.length_drop]; omega)]
      simp only [List.length_take, List.length_drop, List.length_cons]
      omega

theorem grouperFuel_count (n : ℕ) (hn : 1 ≤ n) :
    ∀ (fuel : ℕ) (l : List α), l.length ≤ fuel →
      (grouperFuel n fuel l).length = (l.length + n - 1) / n := by
  intro fuel
  induction fuel with
  | zero =>
    intro l hl
    have h : l = [] := List.length_eq_zero.mp (Nat.le_zero.mp hl)
    subst h
    rw [grouperFuel, List.length_nil, List.length_nil, Nat.zero_add]
    exact (Nat.div_eq_of_lt (by omega)).symm
  | succ m ih =>
    intro l hl
    match l with
    | [] =>
      rw [grouperFuel, List.length_nil, List.length_nil, Nat.zero_add]
      exact (Nat.div_eq_of_lt (by omega)).symm
    | x :: xs =>
      rw [grouperFuel, List.length_cons,
        ih ((x :: xs).drop n) (by simp only [List.length_drop]; omega)]
      simp only [List.length_drop, List.length_cons]
      have e2 : xs.length + 1 + n - 1 = (xs.length + 1 - 1) + n := by omega
      rw [e2, Nat.add_div_right _ (by omega : 0 < n)]
      rcases Nat.lt_or_ge (xs.length + 1) n with hsmall | hbig
      · have h0 : xs.length + 1 - n + n - 1 = n - 1 := by omega
        rw [h0, Nat.div_eq_of_lt (by omega), Nat.div_eq_of_lt (by omega)]
      · have h0 : xs.length + 1 - n + n - 1 = xs.length + 1 - 1 := by omega
        rw [h0]

theorem grouper_sum (l : List α) (n : ℕ) (hn : 1 ≤ n) :
    ((grouper l n).map (fun g => (g.filterMap id).length)).sum = l.length := by
  match n, hn with
  | m + 1, _ => exact grouperFuel_sum (m + 1) (by omega) l.length l le_rfl

theorem grouper_count (l : List α) (n : ℕ) (hn : 1 ≤ n) :
    (grouper l n).length = (l.length + n - 1) / n := by
  match n, hn with
  | m + 1, _ => exact grouperFuel_count (m + 1) (by omega) l.length l le_rfl

/-- C4: after a rebuild with batch size `bs ≥ 1`, the per-group counts of
non-absent entries sum to `nsamples`, and `nbatches = ceil(nsamples / bs)`;
concretely, a flat sequence of 10 windows with `bs = 4` and no shuffling
gives `nsamples = 10`, `nbatches = 3` and groups of (non-absent) sizes
`4, 4, 2`.  (Without shuffling, `fill_names_batches` is a pure function of
its inputs, so repeated rebuilds return the identical group order.) -/
theorem fill_names_batches_sum_ceil :
    (∀ (W : Type) (subsets : List (List W)) (perms : List (List ℕ)) (bs : ℕ),
      1 ≤ bs →
      (((fill_names_batches 0 subsets perms bs).2.2).map
          (fun g => (g.filterMap id).length)).sum
          = (fill_names_batches 0 subsets perms bs).1 ∧
      (fill_names_batches 0 subsets perms bs).2.1
          = ((fill_names_batches 0 subsets perms bs).1 + bs - 1) / bs) ∧
    ((fill_names_batches 0 [List.range 10] [[]] 4).1 = 10 ∧
     (fill_names_batches 0 [List.range 10] [[]] 4).2.1 = 3 ∧
     ((fill_names_batches 0 [List.range 10] [[]] 4).2.2).map
        (fun g => (g.filterMap id).length) = [4, 4, 2]) := by
  refine ⟨fun W subsets perms bs hbs => ⟨?_, ?_⟩, by decide, by decide, by decide⟩
  · exact grouper_sum _ bs hbs
  · exact grouper_count _ bs hbs

/-- Witness for `fill_names_batches_sum_ceil` at the concrete scenario
(`nsamples = 10`, `batch_size = 4`). -/
theorem fill_names_batches_sum_ceil_witness :
    (((fill_names_batches 0 [List.range 10] [[]] 4).2.2).map
        (fun g => (g.filterMap id).length)).sum
        = (fill_names_batches 0 [List.range 10] [[]] 4).1 ∧
    (fill_names_batches 0 [List.range 10] [[]] 4).2.1
        = ((fill_names_batches 0 [List.range 10] [[]] 4).1 + 4 - 1) / 4 :=
  fill_names_batches_sum_ceil.1 ℕ [List.range 10] [[]] 4 (by decide)

/-! ## Theorems for the per-subset `seq_per_video` subsampling -/

theorem filterMap_getElem?_range (l : List W) :
    (List.range l.length).filterMap (fun i => l[i]?) = l := by
  induction l with
  | nil => rfl
  | cons x xs ih =>
    rw [List.length_cons, List.range_succ_eq_map, List.filterMap_cons]
    simp only [List.getElem?_cons_zero, List.filterMap_map]
    have h : (fun i => (x :: xs)[i + 1]?) = fun i => xs[i]? := by
      funext i; exact List.getElem?_cons_succ
    simp only [Function.comp_def, List.getElem?_cons_succ]
    rw [ih]

theorem filterMap_getElem?_length (l : List W) (idxs : List ℕ)
    (h : ∀ i ∈ idxs, i < l.length) :
    (idxs.filterMap (fun i => l[i]?)).length = idxs.length := by
  induction idxs with
  | nil => rfl
  | cons i rest ih =>
    rw [List.filterMap_cons]
    have hmem : i ∈ i :: rest := List.mem_cons_self i rest
    have hi : l[i]? = some (l.get ⟨i, h i hmem⟩) := List.getElem?_eq_getElem (h i hmem)
    rw [hi, List.length_cons, ih (fun j hj => h j (List.mem_cons_of_mem i hj))]
    rfl

theorem selectSeqs_length (cap : ℕ) (hcap : 1 ≤ cap) (seqs : List W)
    (perm : List ℕ) (hperm : perm.Perm (List.range seqs.length)) :
    (selectSeqs cap perm seqs).length = min cap seqs.length := by
  rw [selectSeqs, if_neg (by omega)]
  have hmem : ∀ i ∈ perm.take cap, i < seqs.length := by
    intro i hi
    have : i ∈ perm := List.take_subset _ _ hi
    have : i ∈ List.range seqs.length := hperm.mem_iff.mp this
    exact List.mem_range.mp this
  rw [filterMap_getElem?_length seqs _ hmem, List.length_take, hperm.length_eq,
    List.length_range]

theorem selectSeqs_all (cap : ℕ) (hcap : 1 ≤ cap) (seqs : List W)
    (perm : List ℕ) (hperm : perm.Perm (List.range seqs.length))
    (hall : seqs.length ≤ cap) : (selectSeqs cap perm seqs).Perm seqs := by
  rw [selectSeqs, if_neg (by omega)]
  have hlen : perm.length ≤ cap := by rw [hperm.length_eq, List.length_range]; exact hall
  rw [List.take_of_length_le hlen]
  have h1 : (perm.filterMap (fun i => seqs[i]?)).Perm
      ((List.range seqs.length).filterMap (fun i => seqs[i]?)) := hperm.filterMap _
  rw [filterMap_getElem?_range seqs] at h1
  exact h1

theorem flat_sequences_length (cap : ℕ) (hcap : 1 ≤ cap) :
    ∀ (subsets : List (List W)) (perms : List (List ℕ)),
      List.Forall₂ (fun (s : List W) (p : List ℕ) => p.Perm (List.range s.length))
        subsets perms →
      (flat_sequences cap subsets perms).length
        = (subsets.map (fun s => min cap s.length)).sum := by
  intro subsets perms hf
  induction hf with
  | nil => rfl
  | @cons s p ss ps hsp _ ih =>
    rw [flat_sequences, List.zip_cons_cons, List.map_cons, List.flatten_cons,
      List.length_append, List.map_cons, List.sum_cons,
      selectSeqs_length cap hcap s p hsp]
    rw [flat_sequences] at ih
    rw [ih]

/-- C10: with a positive per-subset cap `seq_per_video`, the epoch rebuild
draws the capped windows through a permutation of the subset's window
indices, so the drawn index list never repeats an index (no window is
selected twice), each subset contributes `min(seq_per_video, #windows)`
windows, a subset with fewer windows than the cap contributes *all* of its
windows (as a permutation, without error), and `nsamples` is the sum of the
per-subset minima. -/
theorem seq_per_video_cap :
    (∀ (W : Type) (cap : ℕ) (seqs : List W) (perm : List ℕ),
      1 ≤ cap → perm.Perm (List.range seqs.length) →
      ((perm.take cap).Nodup ∧
       (selectSeqs cap perm seqs).length = min cap seqs.length ∧
       (seqs.length ≤ cap → (selectSeqs cap perm seqs).Perm seqs))) ∧
    (∀ (W : Type) (cap : ℕ) (subsets : List (List W)) (perms : List (List ℕ)),
      1 ≤ cap →
      List.Forall₂ (fun (s : List W) (p : List ℕ) => p.Perm (List.range s.length))
        subsets perms →
      (flat_sequences cap subsets perms).length
        = (subsets.map (fun s => min cap s.length)).sum) := by
  constructor
  · intro W cap seqs perm hcap hperm
    refine ⟨?_, selectSeqs_length cap hcap seqs perm hperm,
      selectSeqs_all cap hcap seqs perm hperm⟩
    exact ((List.take_sublist cap perm).nodup
      (hperm.nodup_iff.mpr (List.nodup_range _)))
  · intro W cap subsets perms hcap hf
    exact flat_sequences_length cap hcap subsets perms hf

/-- Witness for `seq_per_video_cap`: a subset of three windows with
`seq_per_video = 5` and the index permutation `[2, 0, 1]` keeps all three
windows, and `nsamples = min 5 3 = 3`. -/
theorem seq_per_video_cap_witness :
    (([2, 0, 1].take 5).Nodup ∧
     (selectSeqs 5 [2, 0, 1] [10, 20, 30]).length = min 5 3 ∧
     ([10, 20, 30].length ≤ 5 → (selectSeqs 5 [2, 0, 1] [10, 20, 30]).Perm [10, 20, 30])) ∧
    (flat_sequences 5 [[10, 20, 30]] [[2, 0, 1]]).length
      = ([[10, 20, 30]].map (fun s => min 5 s.length)).sum :=
  ⟨seq_per_video_cap.1 ℕ 5 [10, 20, 30] [2, 0, 1] (by decide) (by decide),
   seq_per_video_cap.2 ℕ 5 [[10, 20, 30]] [[2, 0, 1]] (by decide)
     (List.Forall₂.cons (by decide) List.Forall₂.nil)⟩

/-- C7: the construction-time multithreading check raises exactly when
threading is enabled with more than one worker thread and per-epoch shuffling
is disabled; every other combination passes it. -/
theorem multithread_check_iff :
    ∀ (ut : Bool) (nt : ℤ) (sh : Bool),
      multithread_check_raises ut nt sh = true
        ↔ (ut = true ∧ 1 < nt ∧ sh = false) := by
  intro ut nt sh
  unfold multithread_check_raises
  simp [and_assoc]

/-! ## Theorems for the step loop -/

/-- C5: the scheduler-level `next()` (the `names_batches` iterator) only
advances the cursor over the current epoch's groups and signals end-of-epoch
(`StopIteration`) when they are exhausted, never rebuilding anything itself;
in the `_step` engine, which is the caller that rebuilds, the
end-of-epoch signal reaches the caller of `step()` exactly when the iterator
is configured non-infinite, and with an infinite iterator the engine instead
continues into the rebuilt epoch. -/
theorem sched_next_end_of_epoch :
    (∀ (G : Type) (g : G) (gs : List G), sched_next (g :: gs) = some (g, gs)) ∧
    (∀ (G : Type), sched_next ([] : List G) = none) ∧
    (∀ (G B : Type) (fetch : G → B) (rebuilt : List G) (inf : Bool)
       (cur : List G) (s : List G),
      step_nothreads fetch rebuilt inf cur = .endOfEpoch s ↔
        (cur = [] ∧ inf = false ∧ s = rebuilt)) ∧
    (∀ (G B : Type) (fetch : G → B) (rebuilt : List G) (g : G) (rest : List G),
      rebuilt = g :: rest →
      step_nothreads fetch rebuilt true [] = .batch (fetch g) rest) := by
  refine ⟨fun G g gs => rfl, fun G => rfl, ?_, ?_⟩
  · intro G B fetch rebuilt inf cur s
    match cur, inf with
    | g :: gs, inf => simp [step_nothreads, sched_next]
    | [], true =>
      match rebuilt with
      | [] => simp [step_nothreads, sched_next]
      | g :: gs => simp [step_nothreads, sched_next]
    | [], false =>
      simp only [step_nothreads, sched_next, Bool.false_eq_true, if_false]
      constructor
      · intro h
        injection h with h1
        exact ⟨trivial, trivial, h1.symm⟩
      · rintro ⟨-, -, h⟩
        rw [h]
  · intro G B fetch rebuilt g rest h
    subst h
    rfl

/-- Witness for `sched_next_end_of_epoch`: with an exhausted cursor, an
infinite iterator and a rebuilt epoch `[7]`, the engine returns the fetched
batch from the rebuilt epoch rather than signalling end-of-epoch. -/
theorem sched_next_end_of_epoch_witness :
    step_nothreads (fun n => n + 1) [7] true ([] : List ℕ) = .batch 8 [] :=
  sched_next_end_of_epoch.2.2.2 ℕ ℕ (fun n => n + 1) [7] 7 [] rfl

/-! ## Theorems for the threaded error handling -/

/-- C8: in the threaded branch of `_step`, a captured `IOError` is logged and
the consumer just pops the next in-flight result (the error never surfaces),
any other captured exception is re-raised to the caller of `step()`, a
successful minibatch is returned, and a worker running `threaded_fetch`
processes its whole job list regardless of failures — an exception makes it
emit the captured info and continue, never terminating it. -/
theorem threaded_error_handling :
    (∀ (B : Type) (e : ExcInfo) (rest : List (QItem B)), e.isIOError = true →
      step_consume (.excInfo e :: rest) = step_consume rest) ∧
    (∀ (B : Type) (e : ExcInfo) (rest : List (QItem B)), e.isIOError = false →
      step_consume (.excInfo e :: rest) = .error e) ∧
    (∀ (B : Type) (b : B) (rest : List (QItem B)),
      step_consume (.batch b :: rest) = .ok (some (b, rest))) ∧
    (∀ (G B : Type) (fetch : G → Except ExcInfo B) (jobs : List G),
      (threaded_fetch_run fetch jobs).length = jobs.length) := by
  refine ⟨?_, ?_, fun B b rest => rfl, ?_⟩
  · intro B e rest h
    simp [step_consume, h]
  · intro B e rest h
    simp [step_consume, h]
  · intro G B fetch jobs
    simp [threaded_fetch_run]

/-- Witness for `threaded_error_handling`: an `IOError` record is skipped in
favour of the batch behind it; a non-`IOError` record is re-raised. -/
theorem threaded_error_handling_witness :
    step_consume (.excInfo ⟨true, 0⟩ :: [QItem.batch (5 : ℕ)])
        = step_consume [QItem.batch (5 : ℕ)] ∧
    step_consume (.excInfo ⟨false, 1⟩ :: ([] : List (QItem ℕ)))
        = .error ⟨false, 1⟩ :=
  ⟨threaded_error_handling.1 ℕ ⟨true, 0⟩ [QItem.batch 5] rfl,
   threaded_error_handling.2.1 ℕ ⟨false, 1⟩ [] rfl⟩

/-! ## Theorems about the (absent) validation of `non_void_nclasses` -/

/-- A fully-valid configuration whose `non_void_nclasses` is `0`. -/
def configNVC0 : Config where
  use_threads := false
  nthreads := 1
  shuffle_at_each_epoch := true
  has_name := true
  has_non_void_nclasses := true
  has_debug_shape := true
  has_void_labels_attr := true
  has_path := true
  has_sharedpath := true
  has_data_shape := true
  batch_size := 1
  crop_size := none
  seq_length := 0
  overlap := none
  non_void_nclasses := 0
  void_labels := []
  names_per_subset := [("default", ["f0"])]

/-- C9, counterexample: a configuration with `non_void_nclasses = 0 ≤ 0`
passes every construction-time check, and building its label mapping
succeeds (returning the empty mapping) instead of raising: the code never
validates the value of `non_void_nclasses`. -/
theorem nvc_check_claim_false :
    configNVC0.non_void_nclasses ≤ 0 ∧
    initChecks configNVC0 = .ok () ∧
    get_mapping_implicit configNVC0.non_void_nclasses configNVC0.void_labels
      = [] := by
  refine ⟨by decide, rfl, rfl⟩

/-- C9, amended: construction ignores the value of `non_void_nclasses`
entirely — replacing it in any configuration leaves the outcome of every
construction-time check unchanged (only the *presence* of the attribute is
checked) — and the mapping build is total: for `nvc ≤ 0` with no void labels
it returns the empty mapping rather than failing. -/
theorem nvc_not_validated :
    (∀ (c : Config) (v : ℤ),
      initChecks { c with non_void_nclasses := v } = initChecks c) ∧
    (∀ nvc : ℤ, nvc ≤ 0 → get_mapping_implicit nvc [] = []) := by
  constructor
  · intro c v
    rfl
  · intro nvc h
    have h0 : (nvc + (([] : List ℤ).length : ℤ)).toNat = 0 := by
      simp only [List.length_nil, Nat.cast_zero, add_zero]
      omega
    rw [get_mapping_implicit, pyRange, h0]
    rfl

/-- Witness for `nvc_not_validated` at `nvc = -1`. -/
theorem nvc_not_validated_witness : get_mapping_implicit (-1) [] = [] :=
  nvc_not_validated.2 (-1) (by decide)

/-! ## Theorems for the explicit label mapping (`GTclasses` given) -/

theorem filter_key_map_pair (voids : List ℤ) (nvc l : ℤ) :
    ((voids.map (fun v => (v, nvc))).filter (fun p => p.1 == l))
      = (voids.filter (fun v => v == l)).map (fun v => (v, nvc)) := by
  induction voids with
  | nil => rfl
  | cons x xs ih =>
    simp only [List.map_cons, List.filter_cons]
    cases hb : (x == l) <;> simp [hb, ih]

theorem filter_key_map_enum (l : List (ℕ × ℤ)) (c : ℤ) :
    ((l.map (fun q => (q.2, (q.1 : ℤ)))).filter (fun p => p.1 == c))
      = (l.filter (fun q => q.2 == c)).map (fun q => (q.2, (q.1 : ℤ))) := by
  induction l with
  | nil => rfl
  | cons x xs ih =>
    simp only [List.map_cons, List.filter_cons]
    cases hb : (x.2 == c) <;> simp [hb, ih]

theorem enumFrom_filter_not_mem (c : ℤ) :
    ∀ (l : List ℤ) (n : ℕ), c ∉ l →
      (l.enumFrom n).filter (fun q => q.2 == c) = []
  | [], _, _ => rfl
  | x :: xs, n, h => by
    rw [List.enumFrom_cons, List.filter_cons]
    have hx : ((n, x).2 == c) = false := by
      simp only [beq_eq_false_iff_ne, ne_eq]
      intro hxc
      exact h (hxc ▸ List.mem_cons_self x xs)
    rw [hx]
    simp only [Bool.false_eq_true, if_false]
    exact enumFrom_filter_not_mem c xs (n + 1) (fun hm => h (List.mem_cons_of_mem x hm))

theorem enumFrom_filter_get :
    ∀ (l : List ℤ), l.Nodup → ∀ (i : ℕ) (hi : i < l.length) (n : ℕ),
      (l.enumFrom n).filter (fun q => q.2 == l.get ⟨i, hi⟩)
        = [(n + i, l.get ⟨i, hi⟩)]
  | [], _, i, hi, _ => absurd hi (by simp)
  | x :: xs, hnd, 0, hi, n => by
    have hx : x ∉ xs := (List.nodup_cons.mp hnd).1
    rw [List.enumFrom_cons, List.filter_cons]
    have hhead : ((n, x).2 == (x :: xs).get ⟨0, hi⟩) = true := by simp
    rw [hhead]
    simp only [if_true]
    rw [show (x :: xs).get ⟨0, hi⟩ = x from rfl,
      enumFrom_filter_not_mem x xs (n + 1) hx, Nat.add_zero]
  | x :: xs, hnd, j + 1, hi, n => by
    have hx : x ∉ xs := (List.nodup_cons.mp hnd).1
    have hj : j < xs.length := by
      have := hi; simp only [List.length_cons] at this; omega
    rw [List.enumFrom_cons, List.filter_cons]
    have hget : (x :: xs).get ⟨j + 1, hi⟩ = xs.get ⟨j, hj⟩ := List.get_cons_succ
    have hhead : ((n, x).2 == (x :: xs).get ⟨j + 1, hi⟩) = false := by
      simp only [beq_eq_false_iff_ne, ne_eq, hget]
      intro hxc
      exact hx (hxc ▸ List.get_mem xs j hj)
    rw [hhead]
    simp only [Bool.false_eq_true, if_false, hget]
    rw [enumFrom_filter_get xs (List.nodup_cons.mp hnd).2 j hj (n + 1)]
    rw [show n + 1 + j = n + (j + 1) by omega]

theorem dictGet_explicit_void (order voids : List ℤ) (nvc l : ℤ) (hl : l ∈ voids) :
    dictGet (get_mapping_explicit order voids nvc) l = some nvc := by
  unfold dictGet get_mapping_explicit
  rw [List.filter_append, filter_key_map_pair, List.getLast?_append, List.getLast?_map]
  have hmem : l ∈ voids.filter (fun v => v == l) :=
    List.mem_filter.mpr ⟨hl, by simp⟩
  cases hlast : (voids.filter (fun v => v == l)).getLast? with
  | none =>
    rw [List.getLast?_eq_none_iff] at hlast
    rw [hlast] at hmem
    exact absurd hmem (List.not_mem_nil l)
  | some v => simp [hlast]

theorem dictGet_explicit_iter (order voids : List ℤ) (nvc : ℤ)
    (hnd : order.Nodup) (i : ℕ) (hi : i < order.length)
    (hnv : order.get ⟨i, hi⟩ ∉ voids) :
    dictGet (get_mapping_explicit order voids nvc)
      (order.get ⟨i, hi⟩) = some (i : ℤ) := by
  unfold dictGet get_mapping_explicit
  rw [List.filter_append, filter_key_map_pair]
  have hvnil : voids.filter (fun v => v == order.get ⟨i, hi⟩) = [] := by
    rw [List.filter_eq_nil_iff]
    intro v hv
    simp only [beq_iff_eq]
    intro hveq
    exact hnv (hveq ▸ hv)
  rw [hvnil, List.map_nil, List.append_nil, filter_key_map_enum]
  rw [show order.enum = order.enumFrom 0 from rfl]
  rw [enumFrom_filter_get order hnd i hi 0]
  simp

theorem toFinset_map_const (nvc : ℤ) :
    ∀ (x : ℤ) (xs : List ℤ), ((x :: xs).map (fun _ => nvc)).toFinset = {nvc}
  | _, [] => by simp
  | x, y :: ys => by
    rw [List.map_cons, List.toFinset_cons, toFinset_map_const nvc y ys]
    exact Finset.insert_eq_self.mpr (Finset.mem_singleton_self nvc)

theorem mapping_explicit_image (order voids : List ℤ) (nvc : ℤ)
    (h1 : order.length = nvc.toNat) (h2 : 0 ≤ nvc) :
    ((get_mapping_explicit order voids nvc).map Prod.snd).toFinset
      = if voids.isEmpty
        then ((List.range nvc.toNat).map (fun (k : ℕ) => (k : ℤ))).toFinset
        else ((List.range (nvc.toNat + 1)).map (fun (k : ℕ) => (k : ℤ))).toFinset := by
  unfold get_mapping_explicit
  rw [List.map_append, List.toFinset_append]
  have he : (order.enum.map (fun p => (p.2, (p.1 : ℤ)))).map Prod.snd
      = (List.range nvc.toNat).map (fun (k : ℕ) => (k : ℤ)) := by
    rw [List.map_map,
      show (Prod.snd ∘ fun (p : ℕ × ℤ) => (p.2, (p.1 : ℤ)))
        = (fun (k : ℕ) => (k : ℤ)) ∘ Prod.fst from rfl,
      ← List.map_map, List.enum_map_fst, h1]
  have hv : (voids.map (fun l => (l, nvc))).map Prod.snd
      = voids.map (fun _ => nvc) := by
    rw [List.map_map]; rfl
  rw [he, hv]
  cases voids with
  | nil => simp
  | cons x xs =>
    rw [toFinset_map_const nvc x xs,
      show (x :: xs).isEmpty = false from rfl]
    simp only [Bool.false_eq_true, if_false]
    ext z
    simp only [Finset.mem_union, List.mem_toFinset, List.mem_map, List.mem_range,
      Finset.mem_singleton]
    constructor
    · rintro (⟨j, hj, rfl⟩ | hz)
      · exact ⟨j, by omega, rfl⟩
      · exact ⟨nvc.toNat, by omega, by rw [Int.toNat_of_nonneg h2, hz]⟩
    · rintro ⟨j, hj, rfl⟩
      by_cases hjk : j < nvc.toNat
      · exact Or.inl ⟨j, hjk, rfl⟩
      · have hje : j = nvc.toNat := by omega
        subst hje
        exact Or.inr (Int.toNat_of_nonneg h2)

/-- C3 (code bug): the source *intends* the ascending assignment the claim
states — line 634 sorts `GTclasses`, and the class docstring's example
(lines 83-91) documents the i-th smallest non-void label mapping to `i` —
but the mapping on lines 635-636 enumerates `set(GTclasses) -
set(void_labels)`, whose hash-table iteration order discards the sort.  At
`GTclasses = [0, 8, 16, 24, 32]`, `void_labels = []`,
`non_void_nclasses = 5`, CPython iterates the set difference as
`[0, 32, 16, 8, 24]` (a valid enumeration of it, per `SetDiffIterOrder`),
and the resulting mapping sends 8 to 3 and 32 to 1: the non-void labels
8 < 32 receive *descending* canonical indices, where the claimed (and
documented) ascending assignment demands 8 ↦ 1 and 32 ↦ 4. -/
theorem explicit_mapping_hash_order_bug :
    SetDiffIterOrder [0, 8, 16, 24, 32] [] [0, 32, 16, 8, 24] ∧
    dictGet (get_mapping_explicit [0, 32, 16, 8, 24] [] 5) 8 = some 3 ∧
    dictGet (get_mapping_explicit [0, 32, 16, 8, 24] [] 5) 32 = some 1 ∧
    ((8 : ℤ) < 32 ∧ ¬((3 : ℤ) < 1)) := by
  refine ⟨⟨by decide, by decide, by decide⟩, by decide, by decide, by decide⟩

end DatasetLoaders
